import Mathlib

/-!
Shallow embedding of the template filters of this repository
(`core/templatetags/field_attrs.py`, and — where the two source variants
differ — `customtemplatetags/core/templatetags/field_attrs.py`).

Modelling choices:
* a widget attribute dictionary (`value.field.widget.attrs`) is an
  association list with Python-dict update semantics (update in place keeps
  the position of an existing key, a fresh key is appended);
* a Python `set` of strings is a duplicate-free list (insertion order is a
  concrete stand-in for the unordered iteration order; all set-level claims
  are stated up to membership);
* `int(...)` and `float(...)` string conversion are modelled character by
  character following CPython's accepted grammar over ASCII (optional sign,
  digits with single underscores between digits, and for `float` an optional
  fraction, exponent, `inf`/`infinity`/`nan`); float values are idealized as
  exact rationals, which does not affect parse success or failure;
* raised `TemplateSyntaxError` / `TypeError` / `KeyError` become error
  values (`SetErr`, `TagError`, `Option`).
-/

/-- Whitespace characters recognised by Python's `str.strip()` and
`str.split()` (ASCII fragment). -/
def pyIsSpace (c : Char) : Bool :=
  c = ' ' || c = '\t' || c = '\n' || c = '\r' || c = '\x0b' || c = '\x0c'

/-- Python `str.strip()` on a character list. -/
def stripChars (l : List Char) : List Char :=
  ((l.dropWhile pyIsSpace).reverse.dropWhile pyIsSpace).reverse

/-- Python `str.strip()`. -/
def pyStrip (s : String) : String := String.mk (stripChars s.toList)

/-- Worker for Python `str.split(",")`: split on every comma, empty pieces
kept. -/
def splitCommaAux : List Char → List Char → List String
  | [], cur => [String.mk cur]
  | c :: rest, cur =>
      if c = ',' then String.mk cur :: splitCommaAux rest []
      else splitCommaAux rest (cur ++ [c])

/-- Python `str.split(",")`. -/
def splitComma (s : String) : List String := splitCommaAux s.toList []

/-- Worker for Python `str.split()` (no argument): split on whitespace runs,
discarding empty pieces. -/
def wsSplitAux : List Char → List Char → List String
  | [], cur => if cur = [] then [] else [String.mk cur]
  | c :: rest, cur =>
      if pyIsSpace c then
        (if cur = [] then wsSplitAux rest [] else String.mk cur :: wsSplitAux rest [])
      else wsSplitAux rest (cur ++ [c])

/-- Python `str.split()` with no argument. -/
def pySplitWs (s : String) : List String := wsSplitAux s.toList []

/-- Python `" ".join(...)`. -/
def joinSpace : List String → String
  | [] => ""
  | [x] => x
  | x :: y :: ys => x ++ " " ++ joinSpace (y :: ys)

/-- Python `set.add` on the duplicate-free-list model of a string set. -/
def pySetAdd (acc : List String) (x : String) : List String :=
  if x ∈ acc then acc else acc ++ [x]

/-- Python `set(l)` for a list of strings. -/
def pySet (l : List String) : List String := l.foldl pySetAdd []

/-- Idealized value of a CPython `float`: an exact rational, infinity with a
sign, or nan. -/
inductive PyFloat where
  | finite (q : ℚ)
  | inf (neg : Bool)
  | nan
  deriving DecidableEq, Repr

/-- Negation of a `PyFloat` (used for a leading minus sign). -/
def PyFloat.negate : PyFloat → PyFloat
  | PyFloat.finite q => PyFloat.finite (-q)
  | PyFloat.inf b => PyFloat.inf (!b)
  | PyFloat.nan => PyFloat.nan

/-- Value stored in a widget attribute dictionary: `set_attr` writes strings,
coerced integers, or coerced floats. -/
inductive AttrValue where
  | str (s : String)
  | int (n : Int)
  | float (x : PyFloat)
  deriving DecidableEq, Repr

/-- The widget attribute dictionary `value.field.widget.attrs`, modelled as
an association list with Python-dict semantics. -/
abbrev Attrs := List (String × AttrValue)

/-- Python `key in attrs`. -/
def dictHas : Attrs → String → Bool
  | [], _ => false
  | p :: m, k => if p.1 = k then true else dictHas m k

/-- Python `attrs.get(key)` / `attrs[key]` as an optional lookup. -/
def dictFind : Attrs → String → Option AttrValue
  | [], _ => none
  | p :: m, k => if p.1 = k then some p.2 else dictFind m k

/-- Python `attrs[key] = v`: replace in place if the key exists (Python
dictionaries hold each key once), append otherwise. -/
def dictSet : Attrs → String → AttrValue → Attrs
  | [], k, v => [(k, v)]
  | p :: m, k, v => if p.1 = k then (k, v) :: m else p :: dictSet m k v

/-- Python `del attrs[key]` on a dictionary that holds the key: drop the
entry with that key. -/
def dictDel : Attrs → String → Attrs
  | [], _ => []
  | p :: m, k => if p.1 = k then dictDel m k else p :: dictDel m k

/-- Consume a run of digits with single underscores allowed between digits;
returns the accumulated value, number of digits consumed, and the rest. -/
def digitsGroupCore : List Char → Nat → Nat → Nat × Nat × List Char
  | '_' :: c :: rest, acc, n =>
      if c.isDigit then digitsGroupCore rest (acc * 10 + (c.toNat - 48)) (n + 1)
      else (acc, n, '_' :: c :: rest)
  | c :: rest, acc, n =>
      if c.isDigit then digitsGroupCore rest (acc * 10 + (c.toNat - 48)) (n + 1)
      else (acc, n, c :: rest)
  | [], acc, n => (acc, n, [])

/-- A digit group that must start with a digit (underscores may not lead). -/
def digitsGroup : List Char → Option (Nat × Nat × List Char)
  | c :: rest =>
      if c.isDigit then some (digitsGroupCore rest (c.toNat - 48) 1) else none
  | [] => none

/-- A possibly empty digit group. -/
def digitsOpt : List Char → Nat × Nat × List Char
  | c :: rest =>
      if c.isDigit then digitsGroupCore rest (c.toNat - 48) 1 else (0, 0, c :: rest)
  | [] => (0, 0, [])

/-- A digit group that must consume the whole remaining input, as a natural
number. -/
def allDigits (cs : List Char) : Option Nat :=
  match digitsGroup cs with
  | some (v, _, []) => some v
  | _ => none

/-- Python `int(s)` after stripping: optional sign then decimal digits. -/
def pyIntSigned : List Char → Option Int
  | '+' :: rest => (allDigits rest).map Int.ofNat
  | '-' :: rest => (allDigits rest).map (fun n => -(n : Int))
  | cs => (allDigits cs).map Int.ofNat

/-- CPython `int(s)` for a decimal string (ASCII model). -/
def pyInt (s : String) : Option Int := pyIntSigned (pyStrip s).toList

/-- Exponent digits of a float literal. -/
def expDigits (cs : List Char) : Option Int :=
  (allDigits cs).map Int.ofNat

/-- Signed exponent of a float literal. -/
def expPart : List Char → Option Int
  | '+' :: rest => expDigits rest
  | '-' :: rest => (expDigits rest).map Int.neg
  | cs => expDigits cs

/-- Numeric (non-inf, non-nan) float literal body:
`digits [. digits] [e [sign] digits]` with at least one mantissa digit. -/
def pyFloatNumeric (cs : List Char) : Option ℚ :=
  match digitsOpt cs with
  | (ip, ipn, r1) =>
    match (match r1 with
           | '.' :: rest => digitsOpt rest
           | _ => (0, 0, r1)) with
    | (fp, fpn, r2) =>
      if ipn + fpn = 0 then none
      else
        let mant : ℚ := ((ip * 10 ^ fpn + fp : ℕ) : ℚ) / ((10 ^ fpn : ℕ) : ℚ)
        match r2 with
        | [] => some mant
        | e :: rest =>
            if e = 'e' ∨ e = 'E' then
              match expPart rest with
              | some ex => some (mant * (10 : ℚ) ^ ex)
              | none => none
            else none

/-- Unsigned CPython float body: `inf`, `infinity`, `nan` (case-insensitive)
or a numeric literal. -/
def pyFloatUnsigned (cs : List Char) : Option PyFloat :=
  let ls := cs.map Char.toLower
  if ls = ['i', 'n', 'f'] ∨ ls = ['i', 'n', 'f', 'i', 'n', 'i', 't', 'y'] then
    some (PyFloat.inf false)
  else if ls = ['n', 'a', 'n'] then some PyFloat.nan
  else (pyFloatNumeric cs).map PyFloat.finite

/-- CPython float body with optional sign. -/
def pyFloatSigned : List Char → Option PyFloat
  | '+' :: rest => pyFloatUnsigned rest
  | '-' :: rest => (pyFloatUnsigned rest).map PyFloat.negate
  | cs => pyFloatUnsigned cs

/-- CPython `float(s)` (ASCII model, exact rational values). -/
def pyFloat (s : String) : Option PyFloat := pyFloatSigned (pyStrip s).toList

/-- The numeric-classified attribute keys of `field_attrs.py`. -/
def NUMERIC_KEYS : List String :=
  ["min", "max", "step", "size", "minlength", "maxlength", "cols", "rows"]

/-- The integer-valued numeric attribute keys of `field_attrs.py`. -/
def INTEGER_KEYS : List String :=
  ["size", "minlength", "maxlength", "cols", "rows"]

/-- The float-valued numeric keys as named by the spec (`min`, `max`,
`step`). -/
def floatValuedKeys : List String := ["min", "max", "step"]

/-- The `TemplateSyntaxError` raised by `set_attr` for a numeric-classified
key whose value does not parse, carrying the offending value, the key, and
the expected type ("integer" or "floating-point"). -/
inductive SetErr where
  | numFormat (val key expected : String)
  deriving DecidableEq, Repr

/-- The message string of the raised `TemplateSyntaxError`. -/
def SetErr.message : SetErr → String
  | SetErr.numFormat val key expected =>
      "The value '" ++ val ++ "' for '" ++ key ++
        "' attribute must be a valid " ++ expected ++ "."

/-- Worker of `split_attributes` inside `set_attr` (src/core variant):
left-to-right scan with accumulator `current` and emitted `parts`; a comma
whose predecessor in `current` is not the escape character separates, an
escape character directly followed by a comma turns into a literal comma. -/
def split_attributes_aux : List Char → List Char → List String → List String
  | [], current, parts =>
      if current = [] then parts else parts ++ [String.mk current]
  | '\\' :: ',' :: rest, current, parts =>
      split_attributes_aux rest (current ++ [',']) parts
  | c :: rest, current, parts =>
      if c = ',' ∧ current.getLast? ≠ some '\\' then
        split_attributes_aux rest [] (parts ++ [String.mk current])
      else
        split_attributes_aux rest (current ++ [c]) parts

/-- The nested `split_attributes` function of `set_attr` (src/core). -/
def split_attributes (s : String) : List String :=
  split_attributes_aux s.toList [] []

/-- Tokenizer written from the words of the spec: scan left to right; a
comma is a separator unless immediately preceded by the escape character in
the raw text, in which case the pair is replaced by a literal comma and
scanning continues within the current token. -/
def split_attributes_spec_aux : List Char → List Char → List String
  | [], current => if current = [] then [] else [String.mk current]
  | '\\' :: ',' :: rest, current => split_attributes_spec_aux rest (current ++ [','])
  | ',' :: rest, current => String.mk current :: split_attributes_spec_aux rest []
  | c :: rest, current => split_attributes_spec_aux rest (current ++ [c])

/-- Spec tokenizer on strings. -/
def split_attributes_spec (s : String) : List String :=
  split_attributes_spec_aux s.toList []

/-- Python `attribute.split("=", 1)` when `=` is known to occur: the part
before the first `=` and the part after it. -/
def splitFirstEq : List Char → List Char × List Char
  | [] => ([], [])
  | '=' :: rest => ([], rest)
  | c :: rest =>
      match splitFirstEq rest with
      | (a, b) => (c :: a, b)

/-- Key/value decomposition of one token, as `set_attr` performs it: strip
the token; if it contains `=`, split at the first `=` and strip both sides;
otherwise the token is a bare flag (`none`). -/
def tokenKV (tok : String) : Option (String × String) :=
  let a := pyStrip tok
  if a.toList.contains '=' then
    match splitFirstEq a.toList with
    | (k, v) => some (pyStrip (String.mk k), pyStrip (String.mk v))
  else none

/-- Processing of one token of the attribute string by `set_attr`
(src/core): numeric-classified keys get their value coerced by `int` or
`float`, failure raises, every other key stores the stripped value verbatim,
and a bare flag stores the empty string. -/
def applyToken (m : Attrs) (tok : String) : Except SetErr Attrs :=
  match tokenKV tok with
  | some (key, val) =>
      if key ∈ NUMERIC_KEYS then
        if key ∈ INTEGER_KEYS then
          match pyInt val with
          | some n => Except.ok (dictSet m key (AttrValue.int n))
          | none => Except.error (SetErr.numFormat val key "integer")
        else
          match pyFloat val with
          | some x => Except.ok (dictSet m key (AttrValue.float x))
          | none => Except.error (SetErr.numFormat val key "floating-point")
      else Except.ok (dictSet m key (AttrValue.str val))
  | none => Except.ok (dictSet m (pyStrip tok) (AttrValue.str ""))

/-- The token loop of `set_attr`: tokens are applied left to right; on the
first failing token the loop stops, returning the mapping as mutated so far
together with the raised error. -/
def setAttrTokens : Attrs → List String → Attrs × Option SetErr
  | m, [] => (m, none)
  | m, t :: ts =>
      match applyToken m t with
      | Except.ok m2 => setAttrTokens m2 ts
      | Except.error e => (m, some e)

/-- The `set_attr` filter body (src/core variant) on the attribute mapping:
returns the mutated mapping and the raised error, if any. -/
def set_attr (m : Attrs) (attributes_string : String) : Attrs × Option SetErr :=
  setAttrTokens m (split_attributes attributes_string)

/-- One step of the `clear_attr` loop: strip the name and delete it if
present. -/
def clearStep (acc : Attrs) (nm : String) : Attrs :=
  let k := pyStrip nm
  if dictHas acc k then dictDel acc k else acc

/-- The `clear_attr` filter body on the attribute mapping. -/
def clear_attr (m : Attrs) (attr_names : String) : Attrs :=
  (splitComma attr_names).foldl clearStep m

/-- The string stored under `"class"`, defaulting to the empty string
(`attrs.get("class", "")`; non-string class values are outside the model and
excluded by hypothesis where they could matter). -/
def classGet (m : Attrs) : String :=
  match dictFind m "class" with
  | some (AttrValue.str s) => s
  | _ => ""

/-- The `"class"` entry, if present, holds a string. -/
def classStrOk (m : Attrs) : Bool :=
  match dictFind m "class" with
  | some (AttrValue.int _) => false
  | some (AttrValue.float _) => false
  | _ => true

/-- The current class set of the widget:
`set(attrs.get("class", "").split())`. -/
def currentClasses (m : Attrs) : List String := pySet (pySplitWs (classGet m))

/-- Inner step of `append_class`: strip the class name and add it to the set
when non-empty. -/
def classTokenAdd (acc : List String) (t : String) : List String :=
  let st := pyStrip t
  if st ≠ "" then pySetAdd acc st else acc

/-- The double loop of `append_class`: split the argument on commas, then
each piece on whitespace, adding each non-empty stripped name. -/
def addTokens (cur : List String) (arg : String) : List String :=
  (splitComma arg).foldl (fun acc piece => (pySplitWs piece).foldl classTokenAdd acc) cur

/-- The class set computed by `append_class` before writing back. -/
def addedSet (m : Attrs) (arg : String) : List String :=
  addTokens (currentClasses m) arg

/-- The `append_class` filter body (src/core variant): writes the joined set
back only when it is non-empty. -/
def append_class (m : Attrs) (new_classes : String) : Attrs :=
  if addedSet m new_classes ≠ [] then
    dictSet m "class" (AttrValue.str (joinSpace (addedSet m new_classes)))
  else m

/-- Inner step of `remove_class`: strip the class name and remove it from
the set when present. -/
def classTokenRemove (acc : List String) (t : String) : List String :=
  let st := pyStrip t
  if st ∈ acc then acc.filter (fun x => x ≠ st) else acc

/-- The double loop of `remove_class`. -/
def removeTokens (cur : List String) (arg : String) : List String :=
  (splitComma arg).foldl (fun acc piece => (pySplitWs piece).foldl classTokenRemove acc) cur

/-- The class set computed by `remove_class` before writing back. -/
def removedSet (m : Attrs) (arg : String) : List String :=
  removeTokens (currentClasses m) arg

/-- The `remove_class` filter body (src/core variant): writes the joined
remainder when non-empty; otherwise deletes the `"class"` key, guarded by a
presence check. -/
def remove_class (m : Attrs) (class_names : String) : Attrs :=
  if removedSet m class_names ≠ [] then
    dictSet m "class" (AttrValue.str (joinSpace (removedSet m class_names)))
  else if dictHas m "class" then dictDel m "class"
  else m

/-- The `remove_class` filter body of the src/customtemplatetags variant:
the delete of `"class"` is unguarded, so it raises `KeyError` (modelled as
`none`) when the key is absent. -/
def remove_class_v2 (m : Attrs) (class_names : String) : Option Attrs :=
  if removedSet m class_names ≠ [] then
    some (dictSet m "class" (AttrValue.str (joinSpace (removedSet m class_names))))
  else if dictHas m "class" then some (dictDel m "class")
  else none

/-- A well-formed class token: non-empty and free of whitespace (every
element of a Python `str.split()` result has this shape). -/
def wsToken (t : String) : Prop :=
  t ≠ "" ∧ ∀ c ∈ t.toList, pyIsSpace c = false

/-- The class tokens of an argument string as described by the spec: split
on commas, then on whitespace within each piece, empty tokens discarded. -/
def specClassTokens (arg : String) : List String :=
  ((splitComma arg).map pySplitWs).flatten

/-- The `TypeError` raised by the `boundfield_required` decorator, or a
`TemplateSyntaxError` propagated out of `set_attr`. -/
inductive TagError where
  | typeErr (filterName : String)
  | formatErr (e : SetErr)
  deriving DecidableEq, Repr

/-- The message of the decorator's `TypeError`. -/
def TagError.message : TagError → String
  | TagError.typeErr nm =>
      "The '" ++ nm ++ "' filter can only be applied to form fields (BoundField instances)."
  | TagError.formatErr e => e.message

/-- The first argument of a template filter: a `BoundField` carrying its
widget attribute dictionary, or any other value. -/
inductive TemplateValue where
  | boundField (attrs : Attrs)
  | nonField
  deriving DecidableEq, Repr

/-- The `boundfield_required` decorator: checks the `BoundField` shape of
the first argument before running the wrapped filter, raising a `TypeError`
naming the filter otherwise. -/
def boundfield_required (name : String)
    (op : Attrs → String → Except TagError Attrs) :
    TemplateValue → String → Except TagError TemplateValue
  | TemplateValue.boundField attrs, arg =>
      (op attrs arg).map TemplateValue.boundField
  | TemplateValue.nonField, _ => Except.error (TagError.typeErr name)

/-- The registered `set_attr` filter, decorator included. -/
def set_attr_filter : TemplateValue → String → Except TagError TemplateValue :=
  boundfield_required "set_attr" (fun m arg =>
    match set_attr m arg with
    | (m2, none) => Except.ok m2
    | (_, some e) => Except.error (TagError.formatErr e))

/-- The registered `clear_attr` filter, decorator included. -/
def clear_attr_filter : TemplateValue → String → Except TagError TemplateValue :=
  boundfield_required "clear_attr" (fun m arg => Except.ok (clear_attr m arg))

/-- The registered `append_class` filter, decorator included. -/
def append_class_filter : TemplateValue → String → Except TagError TemplateValue :=
  boundfield_required "append_class" (fun m arg => Except.ok (append_class m arg))

/-- The registered `remove_class` filter (src/core variant), decorator
included. -/
def remove_class_filter : TemplateValue → String → Except TagError TemplateValue :=
  boundfield_required "remove_class" (fun m arg => Except.ok (remove_class m arg))

section DictLemmas

theorem dictHas_cons (p : String × AttrValue) (m : Attrs) (k : String) :
    dictHas (p :: m) k = if p.1 = k then true else dictHas m k := rfl

theorem dictFind_cons (p : String × AttrValue) (m : Attrs) (k : String) :
    dictFind (p :: m) k = if p.1 = k then some p.2 else dictFind m k := rfl

theorem dictFind_dictSet_self (m : Attrs) (k : String) (v : AttrValue) :
    dictFind (dictSet m k v) k = some v := by
  induction m with
  | nil => simp [dictSet, dictFind]
  | cons p m ih =>
    by_cases hp : p.1 = k
    · simp [dictSet, dictFind, hp]
    · simp [dictSet, dictFind, hp, ih]

theorem dictFind_dictSet_other (m : Attrs) (k k2 : String) (v : AttrValue)
    (h : k2 ≠ k) : dictFind (dictSet m k v) k2 = dictFind m k2 := by
  have hk : ¬ k = k2 := fun hc => h hc.symm
  induction m with
  | nil => simp [dictSet, dictFind, hk]
  | cons p m ih =>
    by_cases hp : p.1 = k
    · rw [dictSet, if_pos hp, dictFind_cons, dictFind_cons, if_neg hk,
        if_neg (hp ▸ hk : ¬ p.1 = k2)]
    · rw [dictSet, if_neg hp, dictFind_cons, dictFind_cons]
      by_cases hp2 : p.1 = k2
      · rw [if_pos hp2, if_pos hp2]
      · rw [if_neg hp2, if_neg hp2, ih]

theorem dictHas_dictSet_other (m : Attrs) (k k2 : String) (v : AttrValue)
    (h : k2 ≠ k) : dictHas (dictSet m k v) k2 = dictHas m k2 := by
  have hk : ¬ k = k2 := fun hc => h hc.symm
  induction m with
  | nil => simp [dictSet, dictHas, hk]
  | cons p m ih =>
    by_cases hp : p.1 = k
    · rw [dictSet, if_pos hp, dictHas_cons, dictHas_cons, if_neg hk,
        if_neg (hp ▸ hk : ¬ p.1 = k2)]
    · rw [dictSet, if_neg hp, dictHas_cons, dictHas_cons]
      by_cases hp2 : p.1 = k2
      · rw [if_pos hp2, if_pos hp2]
      · rw [if_neg hp2, if_neg hp2, ih]

theorem dictHas_dictSet_self (m : Attrs) (k : String) (v : AttrValue) :
    dictHas (dictSet m k v) k = true := by
  induction m with
  | nil => simp [dictSet, dictHas]
  | cons p m ih =>
    by_cases hp : p.1 = k <;> simp [dictSet, dictHas, hp, ih]

theorem dictFind_eq_none_of_not_has (m : Attrs) (k : String)
    (h : dictHas m k = false) : dictFind m k = none := by
  induction m with
  | nil => rfl
  | cons p m ih =>
    by_cases hp : p.1 = k
    · rw [dictHas_cons, if_pos hp] at h
      exact absurd h (by simp)
    · rw [dictHas_cons, if_neg hp] at h
      rw [dictFind_cons, if_neg hp, ih h]

theorem dictHas_of_dictFind_some (m : Attrs) (k : String) (v : AttrValue)
    (h : dictFind m k = some v) : dictHas m k = true := by
  induction m with
  | nil => simp [dictFind] at h
  | cons p m ih =>
    by_cases hp : p.1 = k
    · rw [dictHas_cons, if_pos hp]
    · rw [dictFind_cons, if_neg hp] at h
      rw [dictHas_cons, if_neg hp, ih h]

theorem dictHas_dictDel_self (m : Attrs) (k : String) :
    dictHas (dictDel m k) k = false := by
  induction m with
  | nil => rfl
  | cons p m ih =>
    by_cases hp : p.1 = k <;> simp [dictDel, dictHas, hp, ih]

theorem dictHas_dictDel_other (m : Attrs) (k k2 : String) (h : k2 ≠ k) :
    dictHas (dictDel m k) k2 = dictHas m k2 := by
  have hk : ¬ k = k2 := fun hc => h hc.symm
  induction m with
  | nil => rfl
  | cons p m ih =>
    by_cases hp : p.1 = k
    · rw [dictDel, if_pos hp, dictHas_cons, if_neg (hp ▸ hk : ¬ p.1 = k2), ih]
    · rw [dictDel, if_neg hp, dictHas_cons, dictHas_cons]
      by_cases hp2 : p.1 = k2
      · rw [if_pos hp2, if_pos hp2]
      · rw [if_neg hp2, if_neg hp2, ih]

theorem dictFind_dictDel_other (m : Attrs) (k k2 : String) (h : k2 ≠ k) :
    dictFind (dictDel m k) k2 = dictFind m k2 := by
  have hk : ¬ k = k2 := fun hc => h hc.symm
  induction m with
  | nil => rfl
  | cons p m ih =>
    by_cases hp : p.1 = k
    · rw [dictDel, if_pos hp, dictFind_cons, if_neg (hp ▸ hk : ¬ p.1 = k2), ih]
    · rw [dictDel, if_neg hp, dictFind_cons, dictFind_cons]
      by_cases hp2 : p.1 = k2
      · rw [if_pos hp2, if_pos hp2]
      · rw [if_neg hp2, if_neg hp2, ih]

theorem dictFind_dictDel_self (m : Attrs) (k : String) :
    dictFind (dictDel m k) k = none :=
  dictFind_eq_none_of_not_has _ _ (dictHas_dictDel_self m k)

end DictLemmas

section TokenizerLemmas

theorem saux_nil (cur : List Char) (parts : List String) :
    split_attributes_aux [] cur parts =
      if cur = [] then parts else parts ++ [String.mk cur] := rfl

theorem saux_escape (rest : List Char) (cur : List Char) (parts : List String) :
    split_attributes_aux ('\\' :: ',' :: rest) cur parts =
      split_attributes_aux rest (cur ++ [',']) parts := rfl

theorem saux_sep (rest : List Char) (cur : List Char) (parts : List String)
    (h : cur.getLast? ≠ some '\\') :
    split_attributes_aux (',' :: rest) cur parts =
      split_attributes_aux rest [] (parts ++ [String.mk cur]) := by
  rw [split_attributes_aux.eq_def]
  split
  · rename_i heq
    exact absurd heq (by simp)
  · rename_i heq
    exact absurd heq (by simp)
  · rename_i c rest2 hne heq
    injection heq with h1 h2
    subst h1
    subst h2
    rw [if_pos ⟨rfl, h⟩]

end TokenizerLemmas

theorem saux_sep_escaped (rest : List Char) (cur : List Char) (parts : List String)
    (h : cur.getLast? = some '\\') :
    split_attributes_aux (',' :: rest) cur parts =
      split_attributes_aux rest (cur ++ [',']) parts := by
  rw [split_attributes_aux.eq_def]
  split
  · rename_i heq
    exact absurd heq (by simp)
  · rename_i heq
    exact absurd heq (by simp)
  · rename_i c rest2 hne heq
    injection heq with h1 h2
    subst h1
    subst h2
    rw [if_neg (by simp [h])]

theorem saux_append (c : Char) (rest : List Char) (cur : List Char) (parts : List String)
    (h1 : c ≠ ',') (h2 : ¬(c = '\\' ∧ rest.head? = some ',')) :
    split_attributes_aux (c :: rest) cur parts =
      split_attributes_aux rest (cur ++ [c]) parts := by
  rw [split_attributes_aux.eq_def]
  split
  · rename_i heq
    exact absurd heq (by simp)
  · rename_i rest3 heq
    injection heq with hc hr
    exact absurd ⟨hc, by rw [hr]; rfl⟩ h2
  · rename_i c2 rest2 hne heq
    injection heq with hc hr
    subst hc
    subst hr
    rw [if_neg (by simp [h1])]

theorem spec_aux_nil (cur : List Char) :
    split_attributes_spec_aux [] cur = if cur = [] then [] else [String.mk cur] := rfl

theorem spec_aux_escape (rest : List Char) (cur : List Char) :
    split_attributes_spec_aux ('\\' :: ',' :: rest) cur =
      split_attributes_spec_aux rest (cur ++ [',']) := rfl

theorem spec_aux_sep (rest : List Char) (cur : List Char) :
    split_attributes_spec_aux (',' :: rest) cur =
      String.mk cur :: split_attributes_spec_aux rest [] := rfl

theorem spec_aux_append (c : Char) (rest : List Char) (cur : List Char)
    (h1 : c ≠ ',') (h2 : ¬(c = '\\' ∧ rest.head? = some ',')) :
    split_attributes_spec_aux (c :: rest) cur =
      split_attributes_spec_aux rest (cur ++ [c]) := by
  rw [split_attributes_spec_aux.eq_def]
  split
  · rename_i heq
    exact absurd heq (by simp)
  · rename_i rest3 heq
    injection heq with hc hr
    exact absurd ⟨hc, by rw [hr]; rfl⟩ h2
  · rename_i rest3 heq
    injection heq with hc hr
    exact absurd hc h1
  · rename_i c2 rest2 hne1 hne2 heq
    injection heq with hc hr
    subst hc
    subst hr
    rfl

theorem getLast_append_singleton {α : Type} (l : List α) (a : α) :
    (l ++ [a]).getLast? = some a := by
  simp

theorem saux_parts_fuel (n : Nat) :
    ∀ (cs : List Char), cs.length ≤ n → ∀ (cur : List Char) (parts : List String),
      split_attributes_aux cs cur parts = parts ++ split_attributes_aux cs cur [] := by
  induction n with
  | zero =>
    intro cs hlen cur parts
    have : cs = [] := List.length_eq_zero.mp (Nat.le_zero.mp hlen)
    subst this
    rw [saux_nil, saux_nil]
    split
    · simp
    · simp
  | succ n ih =>
    intro cs hlen cur parts
    match cs with
    | [] =>
      rw [saux_nil, saux_nil]
      split
      · simp
      · simp
    | c :: rest =>
      by_cases hesc : c = '\\' ∧ rest.head? = some ','
      · obtain ⟨hc, hh⟩ := hesc
        subst hc
        rcases rest with _ | ⟨c2, rest2⟩
        · simp at hh
        · have hc2 : c2 = ',' := by
            simp [List.head?] at hh
            exact hh
          subst hc2
          rw [saux_escape, saux_escape]
          have hlen2 : rest2.length ≤ n := by
            simp [List.length_cons] at hlen
            omega
          rw [ih rest2 hlen2]
      · by_cases hc : c = ','
        · subst hc
          have hlen2 : rest.length ≤ n := by
            simp [List.length_cons] at hlen
            omega
          by_cases hl : cur.getLast? = some '\\'
          · rw [saux_sep_escaped rest cur parts hl, saux_sep_escaped rest cur [] hl,
              ih rest hlen2]
          · rw [saux_sep rest cur parts hl, saux_sep rest cur [] hl,
              ih rest hlen2 [] (parts ++ [String.mk cur]),
              ih rest hlen2 [] ([] ++ [String.mk cur])]
            simp
        · have hlen2 : rest.length ≤ n := by
            simp [List.length_cons] at hlen
            omega
          rw [saux_append c rest cur parts hc hesc, saux_append c rest cur [] hc hesc,
            ih rest hlen2]

theorem saux_parts (cs : List Char) (cur : List Char) (parts : List String) :
    split_attributes_aux cs cur parts = parts ++ split_attributes_aux cs cur [] :=
  saux_parts_fuel cs.length cs le_rfl cur parts

theorem saux_spec_fuel (n : Nat) :
    ∀ (cs : List Char), cs.length ≤ n → ∀ (cur : List Char) (parts : List String),
      (cs.head? = some ',' → cur.getLast? ≠ some '\\') →
      split_attributes_aux cs cur parts = parts ++ split_attributes_spec_aux cs cur := by
  induction n with
  | zero =>
    intro cs hlen cur parts hinv
    have : cs = [] := List.length_eq_zero.mp (Nat.le_zero.mp hlen)
    subst this
    rw [saux_nil, spec_aux_nil]
    split
    · simp
    · simp
  | succ n ih =>
    intro cs hlen cur parts hinv
    match cs with
    | [] =>
      rw [saux_nil, spec_aux_nil]
      split
      · simp
      · simp
    | c :: rest =>
      by_cases hesc : c = '\\' ∧ rest.head? = some ','
      · obtain ⟨hc, hh⟩ := hesc
        subst hc
        rcases rest with _ | ⟨c2, rest2⟩
        · simp at hh
        · have hc2 : c2 = ',' := by
            simp [List.head?] at hh
            exact hh
          subst hc2
          rw [saux_escape, spec_aux_escape]
          have hlen2 : rest2.length ≤ n := by
            simp [List.length_cons] at hlen
            omega
          exact ih rest2 hlen2 (cur ++ [',']) parts (by
            intro _
            rw [getLast_append_singleton]
            simp)
      · by_cases hc : c = ','
        · subst hc
          have hlast : cur.getLast? ≠ some '\\' := hinv rfl
          have hlen2 : rest.length ≤ n := by
            simp [List.length_cons] at hlen
            omega
          rw [saux_sep rest cur parts hlast, spec_aux_sep,
            ih rest hlen2 [] (parts ++ [String.mk cur]) (by intro _; simp)]
          simp
        · have hlen2 : rest.length ≤ n := by
            simp [List.length_cons] at hlen
            omega
          have hcb : c ≠ '\\' ∨ rest.head? ≠ some ',' := by
            by_cases hb : c = '\\'
            · right
              intro hr
              exact hesc ⟨hb, hr⟩
            · left
              exact hb
          rw [saux_append c rest cur parts hc hesc, spec_aux_append c rest cur hc hesc]
          exact ih rest hlen2 (cur ++ [c]) parts (by
            intro hr
            rw [getLast_append_singleton]
            rcases hcb with hb | hb
            · simp [hb]
            · exact absurd hr hb)

theorem split_attributes_eq_spec (s : String) :
    split_attributes s = split_attributes_spec s := by
  unfold split_attributes split_attributes_spec
  rw [saux_spec_fuel s.toList.length s.toList le_rfl [] [] (by intro h; simp)]
  simp


section SetAttrLemmas

theorem setAttrTokens_append (m : Attrs) (ts l : List String)
    (h : (setAttrTokens m ts).2 = none) :
    setAttrTokens m (ts ++ l) = setAttrTokens (setAttrTokens m ts).1 l := by
  induction ts generalizing m with
  | nil => rfl
  | cons t ts ih =>
    cases happ : applyToken m t with
    | ok m2 =>
      have h2 : (setAttrTokens m2 ts).2 = none := by
        simpa [setAttrTokens, happ] using h
      simp [setAttrTokens, happ, ih m2 h2]
    | error e =>
      simp [setAttrTokens, happ] at h

theorem mem_NUMERIC_of_mem_INTEGER (key : String) (h : key ∈ INTEGER_KEYS) :
    key ∈ NUMERIC_KEYS := by
  fin_cases h <;> decide

theorem mem_floatValued_facts (key : String) (h : key ∈ floatValuedKeys) :
    key ∈ NUMERIC_KEYS ∧ key ∉ INTEGER_KEYS := by
  fin_cases h <;> exact ⟨by decide, by decide⟩

end SetAttrLemmas

/-- Claim C1: for every key/value token of a `set` spec whose key is
numeric-classified, `set_attr` coerces the value before storing it: an
integer-set key (`size`, `minlength`, `maxlength`, `cols`, `rows`) parses
the value as a base-10 integer and a float-set key (`min`, `max`, `step`)
as a floating-point number; exactly when the parse fails, the call raises a
`TemplateSyntaxError` naming the offending key and the expected type, and
exactly when it succeeds, the mapping holds the coerced numeric value. -/
theorem claim_C1_numeric_coercion (m : Attrs) (spec tok key val : String)
    (hsplit : split_attributes spec = [tok])
    (hkv : tokenKV tok = some (key, val)) :
    (key ∈ INTEGER_KEYS →
      ((∀ n : Int, pyInt val = some n →
          set_attr m spec = (dictSet m key (AttrValue.int n), none) ∧
          dictFind (set_attr m spec).1 key = some (AttrValue.int n)) ∧
       (pyInt val = none →
          set_attr m spec = (m, some (SetErr.numFormat val key "integer"))))) ∧
    (key ∈ floatValuedKeys →
      ((∀ x : PyFloat, pyFloat val = some x →
          set_attr m spec = (dictSet m key (AttrValue.float x), none) ∧
          dictFind (set_attr m spec).1 key = some (AttrValue.float x)) ∧
       (pyFloat val = none →
          set_attr m spec = (m, some (SetErr.numFormat val key "floating-point"))))) := by
  have hbase : set_attr m spec = setAttrTokens m [tok] := by
    unfold set_attr
    rw [hsplit]
  constructor
  · intro hint
    have hnum := mem_NUMERIC_of_mem_INTEGER key hint
    constructor
    · intro n hn
      have happ : applyToken m tok = Except.ok (dictSet m key (AttrValue.int n)) := by
        unfold applyToken
        rw [hkv]
        simp only [if_pos hnum, if_pos hint, hn]
      have : set_attr m spec = (dictSet m key (AttrValue.int n), none) := by
        rw [hbase]
        simp [setAttrTokens, happ]
      exact ⟨this, by rw [this]; exact dictFind_dictSet_self m key _⟩
    · intro hn
      have happ : applyToken m tok =
          Except.error (SetErr.numFormat val key "integer") := by
        unfold applyToken
        rw [hkv]
        simp only [if_pos hnum, if_pos hint, hn]
      rw [hbase]
      simp [setAttrTokens, happ]
  · intro hflt
    obtain ⟨hnum, hnotint⟩ := mem_floatValued_facts key hflt
    constructor
    · intro x hx
      have happ : applyToken m tok = Except.ok (dictSet m key (AttrValue.float x)) := by
        unfold applyToken
        rw [hkv]
        simp only [if_pos hnum, if_neg hnotint, hx]
      have : set_attr m spec = (dictSet m key (AttrValue.float x), none) := by
        rw [hbase]
        simp [setAttrTokens, happ]
      exact ⟨this, by rw [this]; exact dictFind_dictSet_self m key _⟩
    · intro hx
      have happ : applyToken m tok =
          Except.error (SetErr.numFormat val key "floating-point") := by
        unfold applyToken
        rw [hkv]
        simp only [if_pos hnum, if_neg hnotint, hx]
      rw [hbase]
      simp [setAttrTokens, happ]

/-- Witness for C1: `set_attr` on `"min=abc"` fails with the error naming
`min` and "floating-point", leaving the mapping unchanged. -/
theorem claim_C1_numeric_coercion_witness :
    set_attr [] "min=abc" = ([], some (SetErr.numFormat "abc" "min" "floating-point")) :=
  ((claim_C1_numeric_coercion [] "min=abc" "min=abc" "min" "abc" (by decide)
    (by decide)).2 (by decide)).2 (by decide)

/-- Claim C2: a trimmed token of a `set` spec with no (unescaped) `=` is a
bare flag: `set_attr` stores the empty string under the trimmed token and
does not raise. -/
theorem claim_C2_bare_flag (m : Attrs) (spec tok : String)
    (hsplit : split_attributes spec = [tok])
    (hbare : tokenKV tok = none) :
    set_attr m spec = (dictSet m (pyStrip tok) (AttrValue.str ""), none) ∧
    dictFind (set_attr m spec).1 (pyStrip tok) = some (AttrValue.str "") := by
  have happ : applyToken m tok =
      Except.ok (dictSet m (pyStrip tok) (AttrValue.str "")) := by
    unfold applyToken
    rw [hbare]
  have hmain : set_attr m spec = (dictSet m (pyStrip tok) (AttrValue.str ""), none) := by
    unfold set_attr
    rw [hsplit]
    simp [setAttrTokens, happ]
  exact ⟨hmain, by rw [hmain]; exact dictFind_dictSet_self m _ _⟩

/-- Witness for C2: `set_attr` on `"required"` stores the empty string under
`required` and raises nothing. -/
theorem claim_C2_bare_flag_witness :
    dictFind (set_attr [] "required").1 "required" = some (AttrValue.str "") :=
  (claim_C2_bare_flag [] "required" "required" (by decide) (by decide)).2

/-- Claim C4: `set_attr` has no rollback: when the tokens in `ts` all apply
cleanly and the next token `t` raises, the call returns exactly the mapping
produced by `ts` together with the error of `t` — entries written by earlier
tokens remain applied. -/
theorem claim_C4_no_rollback (m : Attrs) (spec : String) (ts : List String)
    (t : String) (rest : List String) (e : SetErr)
    (hsplit : split_attributes spec = ts ++ t :: rest)
    (hok : (setAttrTokens m ts).2 = none)
    (herr : applyToken (setAttrTokens m ts).1 t = Except.error e) :
    set_attr m spec = ((setAttrTokens m ts).1, some e) := by
  unfold set_attr
  rw [hsplit, setAttrTokens_append m ts (t :: rest) hok]
  simp [setAttrTokens, herr]

/-- Witness for C4: `set_attr` on `"a=1,size=x,b=2"` fails on the middle
token but keeps the entry written by the first token. -/
theorem claim_C4_no_rollback_witness :
    set_attr [] "a=1,size=x,b=2" =
      ([("a", AttrValue.str "1")], some (SetErr.numFormat "x" "size" "integer")) :=
  claim_C4_no_rollback [] "a=1,size=x,b=2" ["a=1"] "size=x" ["b=2"]
    (SetErr.numFormat "x" "size" "integer") (by decide) (by decide) rfl


/-- Claim C3: in the tokenizer of `set_attr`, a comma separates tokens
unless immediately preceded by the escape character in the raw text, in
which case the pair becomes a single literal comma inside the current token
— stated as: the code's tokenizer agrees with the tokenizer written from
the spec's words on every input; consequently
`set_attr mapping "placeholder=Email Address\, Username"` stores the
literal value `"Email Address, Username"`. -/
theorem claim_C3_escaped_comma :
    (∀ s : String, split_attributes s = split_attributes_spec s) ∧
    (∀ m : Attrs,
      (set_attr m "placeholder=Email Address\\, Username").2 = none ∧
      dictFind (set_attr m "placeholder=Email Address\\, Username").1 "placeholder" =
        some (AttrValue.str "Email Address, Username")) := by
  constructor
  · exact split_attributes_eq_spec
  · intro m
    have hsplit : split_attributes "placeholder=Email Address\\, Username" =
        ["placeholder=Email Address, Username"] := by decide
    have happ : applyToken m "placeholder=Email Address, Username" =
        Except.ok (dictSet m "placeholder" (AttrValue.str "Email Address, Username")) := rfl
    have hmain : set_attr m "placeholder=Email Address\\, Username" =
        (dictSet m "placeholder" (AttrValue.str "Email Address, Username"), none) := by
      unfold set_attr
      rw [hsplit]
      simp [setAttrTokens, happ]
    exact ⟨by rw [hmain], by rw [hmain]; exact dictFind_dictSet_self m _ _⟩

/-- Claim C10: in the src/core `set_attr`, an empty token produced by a
leading or doubled comma is processed as a bare flag with the empty-string
key (writing an `"" ↦ ""` entry), while a trailing comma produces no extra
token and writes no such entry. -/
theorem claim_C10_empty_tokens :
    (∀ cs : List Char,
      split_attributes_aux (',' :: cs) [] [] = "" :: split_attributes_aux cs [] []) ∧
    (split_attributes ",a" = ["", "a"] ∧ split_attributes "a,,b" = ["a", "", "b"] ∧
      split_attributes "a," = ["a"]) ∧
    (∀ m : Attrs, (set_attr m ",a").2 = none ∧
      dictFind (set_attr m ",a").1 "" = some (AttrValue.str "")) ∧
    (∀ m : Attrs, dictFind (set_attr m "a,,b").1 "" = some (AttrValue.str "")) ∧
    (∀ m : Attrs, dictHas m "" = false → dictHas (set_attr m "a,").1 "" = false) := by
  refine ⟨?_, ⟨by decide, by decide, by decide⟩, ?_, ?_, ?_⟩
  · intro cs
    rw [saux_sep cs [] [] (by simp), saux_parts cs [] ([] ++ [String.mk []])]
    rfl
  · intro m
    have h1 : applyToken m "" = Except.ok (dictSet m "" (AttrValue.str "")) := rfl
    have hmain : set_attr m ",a" =
        (dictSet (dictSet m "" (AttrValue.str "")) "a" (AttrValue.str ""), none) := by
      unfold set_attr
      rw [(by decide : split_attributes ",a" = ["", "a"])]
      simp only [setAttrTokens, h1]
      rfl
    refine ⟨by rw [hmain], ?_⟩
    rw [hmain]
    have hne : ("" : String) ≠ "a" := by decide
    rw [show (dictSet (dictSet m "" (AttrValue.str "")) "a" (AttrValue.str ""), none).1 =
        dictSet (dictSet m "" (AttrValue.str "")) "a" (AttrValue.str "") from rfl]
    rw [dictFind_dictSet_other _ _ _ _ hne]
    exact dictFind_dictSet_self m _ _
  · intro m
    have h1 : applyToken m "a" = Except.ok (dictSet m "a" (AttrValue.str "")) := rfl
    have hmain : set_attr m "a,,b" =
        (dictSet (dictSet (dictSet m "a" (AttrValue.str "")) "" (AttrValue.str ""))
          "b" (AttrValue.str ""), none) := by
      unfold set_attr
      rw [(by decide : split_attributes "a,,b" = ["a", "", "b"])]
      simp only [setAttrTokens, h1]
      rfl
    rw [hmain]
    rw [show (dictSet (dictSet (dictSet m "a" (AttrValue.str "")) "" (AttrValue.str ""))
          "b" (AttrValue.str ""), (none : Option SetErr)).1 =
        dictSet (dictSet (dictSet m "a" (AttrValue.str "")) "" (AttrValue.str ""))
          "b" (AttrValue.str "") from rfl]
    rw [dictFind_dictSet_other _ _ _ _ (by decide : ("" : String) ≠ "b")]
    exact dictFind_dictSet_self _ _ _
  · intro m habs
    have hmain : set_attr m "a," = (dictSet m "a" (AttrValue.str ""), none) := by
      unfold set_attr
      rw [(by decide : split_attributes "a," = ["a"])]
      rfl
    rw [hmain]
    rw [show (dictSet m "a" (AttrValue.str ""), (none : Option SetErr)).1 =
        dictSet m "a" (AttrValue.str "") from rfl]
    rw [dictHas_dictSet_other _ _ _ _ (by decide : ("" : String) ≠ "a")]
    exact habs

/-- Witness for C10: on the empty mapping, a trailing comma writes no
entry under the empty-string key. -/
theorem claim_C10_empty_tokens_witness :
    dictHas (set_attr [] "a,").1 "" = false :=
  claim_C10_empty_tokens.2.2.2.2 [] rfl


section WsLemmas

theorem mk_toList (s : String) : String.mk s.toList = s := by
  obtain ⟨data⟩ := s
  rfl

theorem mk_ne_empty (cur : List Char) (h : cur ≠ []) : String.mk cur ≠ "" := by
  intro hcon
  apply h
  have : (String.mk cur).toList = ("" : String).toList := by rw [hcon]
  simpa using this

theorem toList_ne_nil (s : String) (h : s ≠ "") : s.toList ≠ [] := by
  intro hcon
  apply h
  rw [← mk_toList s, hcon]

theorem wsSplitAux_tokens (cs : List Char) :
    ∀ (cur : List Char), (∀ c ∈ cur, pyIsSpace c = false) →
      ∀ t ∈ wsSplitAux cs cur, wsToken t := by
  induction cs with
  | nil =>
    intro cur hcur t ht
    rw [wsSplitAux] at ht
    split at ht
    · simp at ht
    · rename_i hne
      simp at ht
      subst ht
      refine ⟨mk_ne_empty cur hne, ?_⟩
      simpa using hcur
  | cons c rest ih =>
    intro cur hcur t ht
    rw [wsSplitAux] at ht
    by_cases hsp : pyIsSpace c
    · rw [if_pos hsp] at ht
      split at ht
      · exact ih [] (by simp) t ht
      · rename_i hne
        rcases List.mem_cons.mp ht with h1 | h1
        · subst h1
          refine ⟨mk_ne_empty cur hne, ?_⟩
          simpa using hcur
        · exact ih [] (by simp) t h1
    · rw [if_neg hsp] at ht
      refine ih (cur ++ [c]) ?_ t ht
      intro c2 hc2
      rcases List.mem_append.mp hc2 with h1 | h1
      · exact hcur c2 h1
      · simp at h1
        subst h1
        simpa using hsp

theorem pySplitWs_tokens (s : String) : ∀ t ∈ pySplitWs s, wsToken t :=
  wsSplitAux_tokens s.toList [] (by simp)

theorem wsSplitAux_chunk (xs : List Char) :
    ∀ (cs cur : List Char), (∀ c ∈ xs, pyIsSpace c = false) →
      wsSplitAux (xs ++ cs) cur = wsSplitAux cs (cur ++ xs) := by
  induction xs with
  | nil =>
    intro cs cur _
    simp
  | cons c xs ih =>
    intro cs cur hxs
    have hsp : pyIsSpace c = false := hxs c (by simp)
    rw [List.cons_append, wsSplitAux, if_neg (by simp [hsp])]
    rw [ih cs (cur ++ [c]) (fun c2 hc2 => hxs c2 (by simp [hc2]))]
    simp

theorem wsSplitAux_space (cs cur : List Char) (h : cur ≠ []) :
    wsSplitAux (' ' :: cs) cur = String.mk cur :: wsSplitAux cs [] := by
  rw [wsSplitAux, if_pos (by decide), if_neg h]

theorem pySplitWs_joinSpace (l : List String) (h : ∀ t ∈ l, wsToken t) :
    pySplitWs (joinSpace l) = l := by
  induction l with
  | nil => rfl
  | cons x l ih =>
    obtain ⟨hxne, hxws⟩ := h x (by simp)
    have hxfree : ∀ c ∈ x.toList, pyIsSpace c = false := hxws
    cases l with
    | nil =>
      show wsSplitAux (joinSpace [x]).toList [] = [x]
      rw [joinSpace]
      rw [show x.toList = x.toList ++ [] by simp]
      rw [wsSplitAux_chunk x.toList [] [] hxfree]
      rw [wsSplitAux]
      simp only [List.nil_append]
      rw [if_neg (toList_ne_nil x hxne)]
      rw [mk_toList]
    | cons y l2 =>
      have hdata : (joinSpace (x :: y :: l2)).toList =
          x.toList ++ (' ' :: (joinSpace (y :: l2)).toList) := by
        rw [joinSpace]
        show (x ++ " " ++ joinSpace (y :: l2)).data =
          x.data ++ (' ' :: (joinSpace (y :: l2)).data)
        rw [String.data_append, String.data_append]
        rw [show (" " : String).data = [' '] from rfl]
        simp
      show wsSplitAux (joinSpace (x :: y :: l2)).toList [] = x :: y :: l2
      rw [hdata, wsSplitAux_chunk x.toList _ [] hxfree]
      rw [show ([] : List Char) ++ x.toList = x.toList by simp]
      rw [wsSplitAux_space _ _ (toList_ne_nil x hxne), mk_toList]
      rw [show wsSplitAux (joinSpace (y :: l2)).toList [] = pySplitWs (joinSpace (y :: l2)) from rfl]
      rw [ih (fun t ht => h t (by simp [ht]))]

theorem joinSpace_ne_empty (l : List String) (hne : l ≠ [])
    (h : ∀ t ∈ l, t ≠ "") : joinSpace l ≠ "" := by
  cases l with
  | nil => exact absurd rfl hne
  | cons x l2 =>
    cases l2 with
    | nil => exact h x (by simp)
    | cons y l3 =>
      rw [joinSpace]
      intro hcon
      have hlen := congrArg String.length hcon
      rw [String.length_append, String.length_append] at hlen
      rw [show (" " : String).length = 1 from rfl] at hlen
      rw [show ("" : String).length = 0 from rfl] at hlen
      omega

end WsLemmas

section PySetLemmas

theorem mem_pySetAdd (acc : List String) (a x : String) :
    x ∈ pySetAdd acc a ↔ x ∈ acc ∨ x = a := by
  unfold pySetAdd
  split
  · rename_i hmem
    constructor
    · exact fun h => Or.inl h
    · rintro (h | rfl)
      · exact h
      · exact hmem
  · simp [List.mem_append]

theorem mem_foldl_pySetAdd (l : List String) :
    ∀ (acc : List String) (x : String),
      x ∈ l.foldl pySetAdd acc ↔ x ∈ acc ∨ x ∈ l := by
  induction l with
  | nil => simp
  | cons a l ih =>
    intro acc x
    rw [List.foldl_cons, ih, mem_pySetAdd]
    simp [or_assoc]

theorem mem_pySet (l : List String) (x : String) : x ∈ pySet l ↔ x ∈ l := by
  unfold pySet
  rw [mem_foldl_pySetAdd]
  simp

theorem nodup_pySetAdd (acc : List String) (a : String) (h : acc.Nodup) :
    (pySetAdd acc a).Nodup := by
  unfold pySetAdd
  split
  · exact h
  · rename_i hmem
    simp [List.nodup_append, h, hmem]

theorem nodup_foldl_pySetAdd (l : List String) :
    ∀ acc : List String, acc.Nodup → (l.foldl pySetAdd acc).Nodup := by
  induction l with
  | nil => exact fun acc h => h
  | cons a l ih => exact fun acc h => ih _ (nodup_pySetAdd acc a h)

theorem nodup_pySet (l : List String) : (pySet l).Nodup :=
  nodup_foldl_pySetAdd l [] (by simp)

end PySetLemmas


section StripLemmas

theorem dropWhile_eq_self_of {p : Char → Bool} (l : List Char)
    (h : ∀ c ∈ l, p c = false) : l.dropWhile p = l := by
  cases l with
  | nil => rfl
  | cons c rest =>
    rw [List.dropWhile_cons, if_neg (by simp [h c (by simp)])]

theorem stripChars_eq_self (l : List Char) (h : ∀ c ∈ l, pyIsSpace c = false) :
    stripChars l = l := by
  unfold stripChars
  rw [dropWhile_eq_self_of l h]
  rw [dropWhile_eq_self_of l.reverse (fun c hc => h c (List.mem_reverse.mp hc))]
  simp

theorem pyStrip_wsToken (t : String) (h : wsToken t) : pyStrip t = t := by
  unfold pyStrip
  rw [stripChars_eq_self t.toList h.2, mk_toList]

end StripLemmas

section AddTokensLemmas

theorem classTokenAdd_wsToken (acc : List String) (t : String) (h : wsToken t) :
    classTokenAdd acc t = pySetAdd acc t := by
  have hdef : classTokenAdd acc t =
      if pyStrip t ≠ "" then pySetAdd acc (pyStrip t) else acc := rfl
  rw [hdef, pyStrip_wsToken t h, if_pos h.1]

theorem mem_foldl_classTokenAdd (ts : List String) :
    ∀ (acc : List String) (x : String), (∀ t ∈ ts, wsToken t) →
      (x ∈ ts.foldl classTokenAdd acc ↔ x ∈ acc ∨ x ∈ ts) := by
  induction ts with
  | nil => simp
  | cons t ts ih =>
    intro acc x hts
    rw [List.foldl_cons, classTokenAdd_wsToken acc t (hts t (by simp)),
      ih (pySetAdd acc t) x (fun u hu => hts u (by simp [hu])), mem_pySetAdd]
    simp [or_assoc]

theorem mem_addTokens (cur : List String) (arg : String) (x : String) :
    x ∈ addTokens cur arg ↔ x ∈ cur ∨ x ∈ specClassTokens arg := by
  unfold addTokens specClassTokens
  generalize splitComma arg = pieces
  induction pieces generalizing cur with
  | nil => simp
  | cons p ps ih =>
    rw [List.foldl_cons, List.map_cons, List.flatten_cons,
      ih ((pySplitWs p).foldl classTokenAdd cur),
      mem_foldl_classTokenAdd (pySplitWs p) cur x (pySplitWs_tokens p)]
    simp [or_assoc, List.mem_append]

theorem nodup_classTokenAdd (acc : List String) (t : String) (h : acc.Nodup) :
    (classTokenAdd acc t).Nodup := by
  have hdef : classTokenAdd acc t =
      if pyStrip t ≠ "" then pySetAdd acc (pyStrip t) else acc := rfl
  rw [hdef]
  split
  · exact nodup_pySetAdd acc _ h
  · exact h

theorem nodup_foldl_classTokenAdd (ts : List String) :
    ∀ acc : List String, acc.Nodup → (ts.foldl classTokenAdd acc).Nodup := by
  induction ts with
  | nil => exact fun acc h => h
  | cons t ts ih => exact fun acc h => ih _ (nodup_classTokenAdd acc t h)

theorem nodup_addTokens (cur : List String) (arg : String) (h : cur.Nodup) :
    (addTokens cur arg).Nodup := by
  unfold addTokens
  generalize splitComma arg = pieces
  induction pieces generalizing cur with
  | nil => exact h
  | cons p ps ih =>
    rw [List.foldl_cons]
    exact ih _ (nodup_foldl_classTokenAdd (pySplitWs p) cur h)

theorem specClassTokens_wsToken (arg : String) :
    ∀ x ∈ specClassTokens arg, wsToken x := by
  intro x hx
  unfold specClassTokens at hx
  rw [List.mem_flatten] at hx
  obtain ⟨l, hl, hxl⟩ := hx
  rw [List.mem_map] at hl
  obtain ⟨p, _, rfl⟩ := hl
  exact pySplitWs_tokens p x hxl

theorem currentClasses_wsToken (m : Attrs) :
    ∀ x ∈ currentClasses m, wsToken x := by
  intro x hx
  unfold currentClasses at hx
  rw [mem_pySet] at hx
  exact pySplitWs_tokens _ x hx

theorem addedSet_wsToken (m : Attrs) (arg : String) :
    ∀ x ∈ addedSet m arg, wsToken x := by
  intro x hx
  rcases (mem_addTokens _ _ x).mp hx with h1 | h1
  · exact currentClasses_wsToken m x h1
  · exact specClassTokens_wsToken arg x h1

end AddTokensLemmas

section RemoveTokensLemmas

theorem classTokenRemove_subset (acc : List String) (t : String) :
    ∀ x ∈ classTokenRemove acc t, x ∈ acc := by
  intro x hx
  have hdef : classTokenRemove acc t =
      if pyStrip t ∈ acc then acc.filter (fun y => y ≠ pyStrip t) else acc := rfl
  rw [hdef] at hx
  split at hx
  · exact (List.mem_filter.mp hx).1
  · exact hx

theorem foldl_classTokenRemove_subset (ts : List String) :
    ∀ (acc : List String) (x : String), x ∈ ts.foldl classTokenRemove acc → x ∈ acc := by
  induction ts with
  | nil => exact fun acc x h => h
  | cons t ts ih =>
    intro acc x h
    exact classTokenRemove_subset acc t x (ih _ x h)

theorem removeTokens_subset (cur : List String) (arg : String) :
    ∀ x ∈ removeTokens cur arg, x ∈ cur := by
  unfold removeTokens
  generalize splitComma arg = pieces
  induction pieces generalizing cur with
  | nil => exact fun x h => h
  | cons p ps ih =>
    intro x h
    exact foldl_classTokenRemove_subset (pySplitWs p) cur x (ih _ x h)

theorem removeTokens_nil (arg : String) : removeTokens [] arg = [] := by
  rw [List.eq_nil_iff_forall_not_mem]
  intro x hx
  simpa using removeTokens_subset [] arg x hx

theorem removedSet_wsToken (m : Attrs) (arg : String) :
    ∀ x ∈ removedSet m arg, wsToken x := by
  intro x hx
  exact currentClasses_wsToken m x (removeTokens_subset _ _ x hx)

end RemoveTokensLemmas

section ClassGetLemmas

theorem classGet_dictSet_str (m : Attrs) (s : String) :
    classGet (dictSet m "class" (AttrValue.str s)) = s := by
  unfold classGet
  rw [dictFind_dictSet_self]

theorem classGet_of_not_has (m : Attrs) (h : dictHas m "class" = false) :
    classGet m = "" := by
  unfold classGet
  rw [dictFind_eq_none_of_not_has m _ h]

theorem classGet_of_find_str (m : Attrs) (s : String)
    (h : dictFind m "class" = some (AttrValue.str s)) : classGet m = s := by
  unfold classGet
  rw [h]

end ClassGetLemmas

section AppendClassHelpers

theorem append_class_eq_of_empty (m : Attrs) (arg : String)
    (h : addedSet m arg = []) : append_class m arg = m := by
  unfold append_class
  rw [if_neg (by simp [h])]

theorem append_class_eq_of_nonempty (m : Attrs) (arg : String)
    (h : addedSet m arg ≠ []) :
    append_class m arg = dictSet m "class" (AttrValue.str (joinSpace (addedSet m arg))) := by
  unfold append_class
  rw [if_pos h]

theorem currentClasses_nil_of_addedSet_nil (m : Attrs) (arg : String)
    (h : addedSet m arg = []) : pySplitWs (classGet m) = [] := by
  rw [List.eq_nil_iff_forall_not_mem]
  intro x hx
  have hx2 : x ∈ addedSet m arg :=
    (mem_addTokens _ _ x).mpr (Or.inl ((mem_pySet _ x).mpr hx))
  rw [h] at hx2
  simp at hx2

theorem specClassTokens_nil_of_addedSet_nil (m : Attrs) (arg : String)
    (h : addedSet m arg = []) : specClassTokens arg = [] := by
  rw [List.eq_nil_iff_forall_not_mem]
  intro x hx
  have hx2 : x ∈ addedSet m arg := (mem_addTokens _ _ x).mpr (Or.inr hx)
  rw [h] at hx2
  simp at hx2

theorem append_class_split (m : Attrs) (arg : String) :
    pySplitWs (classGet (append_class m arg)) = addedSet m arg := by
  by_cases h : addedSet m arg = []
  · rw [append_class_eq_of_empty m arg h, h, currentClasses_nil_of_addedSet_nil m arg h]
  · rw [append_class_eq_of_nonempty m arg h, classGet_dictSet_str,
      pySplitWs_joinSpace _ (addedSet_wsToken m arg)]

theorem append_class_mem (m : Attrs) (arg : String) (x : String) :
    x ∈ pySplitWs (classGet (append_class m arg)) ↔
      x ∈ pySplitWs (classGet m) ∨ x ∈ specClassTokens arg := by
  rw [append_class_split]
  unfold addedSet
  rw [mem_addTokens]
  unfold currentClasses
  rw [mem_pySet]

end AppendClassHelpers


/-- Claim C5: after any `remove_class` call (src/core variant, on a mapping
whose `class` entry — if any — holds a string), the mapping never maps
`class` to the empty string: when subtraction leaves the class set empty the
`class` key is deleted entirely, otherwise the space-joined remainder is
written. -/
theorem claim_C5_remove_class_no_empty (m : Attrs) (arg : String)
    (_hok : classStrOk m = true) :
    dictFind (remove_class m arg) "class" ≠ some (AttrValue.str "") ∧
    (removedSet m arg = [] → dictHas (remove_class m arg) "class" = false) ∧
    (removedSet m arg ≠ [] →
      dictFind (remove_class m arg) "class" =
        some (AttrValue.str (joinSpace (removedSet m arg)))) := by
  by_cases h : removedSet m arg = []
  · have hres : remove_class m arg =
        if dictHas m "class" then dictDel m "class" else m := by
      unfold remove_class
      rw [if_neg (by simp [h])]
    refine ⟨?_, fun _ => ?_, fun hc => absurd h hc⟩
    · rw [hres]
      split
      · rw [dictFind_dictDel_self]
        simp
      · rename_i hhas
        rw [dictFind_eq_none_of_not_has m _ (by simpa using hhas)]
        simp
    · rw [hres]
      split
      · exact dictHas_dictDel_self m "class"
      · rename_i hhas
        simpa using hhas
  · have hres : remove_class m arg =
        dictSet m "class" (AttrValue.str (joinSpace (removedSet m arg))) := by
      unfold remove_class
      rw [if_pos h]
    have hjoin : joinSpace (removedSet m arg) ≠ "" :=
      joinSpace_ne_empty _ h (fun t ht => (removedSet_wsToken m arg t ht).1)
    refine ⟨?_, fun hc => absurd hc h, fun _ => ?_⟩
    · rw [hres, dictFind_dictSet_self]
      intro hcon
      exact hjoin (by injection hcon with h2; injection h2)
    · rw [hres, dictFind_dictSet_self]

/-- Witness for C5: removing `"a b"` from a mapping whose class set is
exactly `{a, b}` deletes the `class` key entirely. -/
theorem claim_C5_remove_class_no_empty_witness :
    dictHas (remove_class [("class", AttrValue.str "a b")] "a b") "class" = false :=
  (claim_C5_remove_class_no_empty [("class", AttrValue.str "a b")] "a b" rfl).2.1
    (by decide)

/-- Claim C6: `append_class` (src/core variant, on a mapping whose `class`
entry — if any — holds a string) computes a set union: the stored class set
is exactly the union of the existing class set and the comma/whitespace
tokens of the argument, duplicates are never introduced, and re-appending
the same argument is idempotent at the set level. -/
theorem claim_C6_append_class_union (m : Attrs) (arg : String)
    (_hok : classStrOk m = true) :
    (pySplitWs (classGet (append_class m arg))).Nodup ∧
    (∀ x : String, x ∈ pySplitWs (classGet (append_class m arg)) ↔
      (x ∈ pySplitWs (classGet m) ∨ x ∈ specClassTokens arg)) ∧
    (∀ x : String, x ∈ pySplitWs (classGet (append_class (append_class m arg) arg)) ↔
      x ∈ pySplitWs (classGet (append_class m arg))) := by
  refine ⟨?_, append_class_mem m arg, ?_⟩
  · rw [append_class_split]
    exact nodup_addTokens _ arg (nodup_pySet _)
  · intro x
    rw [append_class_mem (append_class m arg) arg x, append_class_mem m arg x]
    tauto

/-- Witness for C6: after `append_class mapping "a,b c"` and a second
`append_class ... "b"`, the token `c` is still in the stored class set. -/
theorem claim_C6_append_class_union_witness :
    "c" ∈ pySplitWs (classGet (append_class (append_class [] "a,b c") "b")) :=
  ((claim_C6_append_class_union (append_class [] "a,b c") "b" (by decide)).2.1
    "c").mpr (Or.inl (by decide))

section ClearLemmas

theorem dictHas_dictDel_of_not_has (m : Attrs) (k k2 : String)
    (h : dictHas m k2 = false) : dictHas (dictDel m k) k2 = false := by
  by_cases hk : k2 = k
  · subst hk
    exact dictHas_dictDel_self m k2
  · rw [dictHas_dictDel_other m k k2 hk]
    exact h

theorem clearStep_def (acc : Attrs) (nm : String) :
    clearStep acc nm =
      if dictHas acc (pyStrip nm) then dictDel acc (pyStrip nm) else acc := rfl

theorem clearStep_not_has (acc : Attrs) (nm : String) (k : String)
    (h : dictHas acc k = false) : dictHas (clearStep acc nm) k = false := by
  rw [clearStep_def]
  split
  · exact dictHas_dictDel_of_not_has acc _ k h
  · exact h

theorem clearStep_clears (acc : Attrs) (nm : String) :
    dictHas (clearStep acc nm) (pyStrip nm) = false := by
  rw [clearStep_def]
  split
  · exact dictHas_dictDel_self acc _
  · rename_i hhas
    simpa using hhas

theorem foldl_clearStep_not_has (l : List String) :
    ∀ (acc : Attrs) (k : String), dictHas acc k = false →
      dictHas (l.foldl clearStep acc) k = false := by
  induction l with
  | nil => exact fun acc k h => h
  | cons a l ih =>
    intro acc k h
    exact ih _ k (clearStep_not_has acc a k h)

theorem foldl_clearStep_clears (l : List String) :
    ∀ (acc : Attrs) (nm : String), nm ∈ l →
      dictHas (l.foldl clearStep acc) (pyStrip nm) = false := by
  induction l with
  | nil =>
    intro acc nm h
    simp at h
  | cons a l ih =>
    intro acc nm h
    rcases List.mem_cons.mp h with h1 | h1
    · subst h1
      exact foldl_clearStep_not_has l _ _ (clearStep_clears acc nm)
    · exact ih _ nm h1

theorem clearStep_find_other (acc : Attrs) (nm : String) (k : String)
    (h : pyStrip nm ≠ k) : dictFind (clearStep acc nm) k = dictFind acc k := by
  rw [clearStep_def]
  split
  · exact dictFind_dictDel_other acc _ k (fun hc => h hc.symm)
  · rfl

theorem foldl_clearStep_find (l : List String) :
    ∀ (acc : Attrs) (k : String), (∀ nm ∈ l, pyStrip nm ≠ k) →
      dictFind (l.foldl clearStep acc) k = dictFind acc k := by
  induction l with
  | nil => exact fun acc k _ => rfl
  | cons a l ih =>
    intro acc k h
    rw [List.foldl_cons, ih _ k (fun nm hnm => h nm (by simp [hnm])),
      clearStep_find_other acc a k (h a (by simp))]

theorem foldl_clearStep_noop (l : List String) :
    ∀ acc : Attrs, (∀ nm ∈ l, dictHas acc (pyStrip nm) = false) →
      l.foldl clearStep acc = acc := by
  induction l with
  | nil => exact fun acc _ => rfl
  | cons a l ih =>
    intro acc h
    have hstep : clearStep acc a = acc := by
      rw [clearStep_def, if_neg (by simp [h a (by simp)])]
    rw [List.foldl_cons, hstep]
    exact ih acc (fun nm hnm => h nm (by simp [hnm]))

end ClearLemmas

/-- Claim C7: `clear_attr` splits its names argument on commas, trims each
name, deletes every named key, leaves every other key untouched (absent
names are silently ignored — there is no error value at all), and is
idempotent. -/
theorem claim_C7_clear_idempotent (m : Attrs) (names : String) :
    (∀ nm, nm ∈ splitComma names →
      dictHas (clear_attr m names) (pyStrip nm) = false) ∧
    (∀ k : String, (∀ nm ∈ splitComma names, pyStrip nm ≠ k) →
      dictFind (clear_attr m names) k = dictFind m k) ∧
    clear_attr (clear_attr m names) names = clear_attr m names := by
  refine ⟨?_, ?_, ?_⟩
  · intro nm hnm
    exact foldl_clearStep_clears (splitComma names) m nm hnm
  · intro k hk
    exact foldl_clearStep_find (splitComma names) m k hk
  · exact foldl_clearStep_noop (splitComma names) (clear_attr m names)
      (fun nm hnm => foldl_clearStep_clears (splitComma names) m nm hnm)

/-- Witness for C7: clearing `"class,placeholder"` removes the `class` key
from a mapping holding both keys. -/
theorem claim_C7_clear_idempotent_witness :
    dictHas (clear_attr [("class", AttrValue.str "x"), ("placeholder", AttrValue.str "y")]
      "class,placeholder") "class" = false :=
  (claim_C7_clear_idempotent
    [("class", AttrValue.str "x"), ("placeholder", AttrValue.str "y")]
    "class,placeholder").1 "class" (by decide)

/-- Claim C8: each of the four registered filters, called with a first
argument that is not a `BoundField`, fails with the decorator's `TypeError`
naming the filter, for every string argument — before any parsing of the
argument and before any mutation (no mapping of any field is reachable, and
the result does not depend on the argument string). -/
theorem claim_C8_type_guard (arg : String) :
    set_attr_filter TemplateValue.nonField arg =
      Except.error (TagError.typeErr "set_attr") ∧
    clear_attr_filter TemplateValue.nonField arg =
      Except.error (TagError.typeErr "clear_attr") ∧
    append_class_filter TemplateValue.nonField arg =
      Except.error (TagError.typeErr "append_class") ∧
    remove_class_filter TemplateValue.nonField arg =
      Except.error (TagError.typeErr "remove_class") :=
  ⟨rfl, rfl, rfl, rfl⟩

/-- Counterexample for C9 as stated: on a mapping whose `class` value is
whitespace-only (so the entry is present), the src/customtemplatetags
`remove_class` reaches the unguarded delete but does NOT raise `KeyError` —
the delete succeeds and returns the mapping without the entry. -/
theorem claim_C9_keyerror_counterexample :
    remove_class_v2 [("class", AttrValue.str " ")] "x" = some [] := by decide

/-- Claim C9 as amended: the src/customtemplatetags `remove_class` raises
`KeyError` exactly in the no-`class`-entry case, for any argument; a
whitespace-only `class` value (entry present) is instead deleted without
error by both variants; the src/core variant guards the delete and leaves
the mapping unchanged when no `class` entry exists. -/
theorem claim_C9_keyerror_amended (m : Attrs) (arg : String) :
    (dictHas m "class" = false →
      remove_class_v2 m arg = none ∧ remove_class m arg = m) ∧
    (∀ s : String, dictFind m "class" = some (AttrValue.str s) → pySplitWs s = [] →
      remove_class_v2 m arg = some (dictDel m "class") ∧
      remove_class m arg = dictDel m "class") := by
  constructor
  · intro habs
    have hcur : removedSet m arg = [] := by
      unfold removedSet currentClasses
      rw [classGet_of_not_has m habs]
      rw [show pySplitWs "" = [] from rfl]
      rw [show pySet [] = [] from rfl]
      exact removeTokens_nil arg
    constructor
    · unfold remove_class_v2
      rw [if_neg (by simp [hcur]), if_neg (by simp [habs])]
    · unfold remove_class
      rw [if_neg (by simp [hcur]), if_neg (by simp [habs])]
  · intro s hfind hsplit
    have hcur : removedSet m arg = [] := by
      unfold removedSet currentClasses
      rw [classGet_of_find_str m s hfind, hsplit]
      rw [show pySet [] = [] from rfl]
      exact removeTokens_nil arg
    have hhas : dictHas m "class" = true := dictHas_of_dictFind_some m _ _ hfind
    constructor
    · unfold remove_class_v2
      rw [if_neg (by simp [hcur]), if_pos hhas]
    · unfold remove_class
      rw [if_neg (by simp [hcur]), if_pos hhas]

/-- Witness for the amended C9: on the empty mapping the
src/customtemplatetags variant raises `KeyError` while the src/core variant
returns the mapping unchanged. -/
theorem claim_C9_keyerror_amended_witness :
    remove_class_v2 [] "x" = none ∧ remove_class [] "x" = [] :=
  (claim_C9_keyerror_amended [] "x").1 rfl
